import Mathlib

/-
  Verification of the NPIV volume adapter
  (nova_powervm/virt/powervm/volume/npiv.py).

  Shallow embedding: Python strings are `List Char`, the instance's
  `system_metadata` dict is an association list, and the external
  pypowervm / nova collaborators (build_wwpn_pair, derive_npiv_map,
  add/remove_npiv_port_mappings, mgmt partition lookup) are abstracted
  as oracle parameters whose invocations are recorded in an event trace.
-/

namespace NPIV

/-- Embedding of a Python `str` as a list of characters. -/
abbrev PyStr := List Char

/-- Module constant WWPN_SYSTEM_METADATA_KEY = 'npiv_adpt_wwpns'. -/
def WWPN_SYSTEM_METADATA_KEY : PyStr := "npiv_adpt_wwpns".toList

/-- Module constant FABRIC_STATE_METADATA_KEY = 'fabric_state'. -/
def FABRIC_STATE_METADATA_KEY : PyStr := "fabric_state".toList

/-- Module constant FS_UNMAPPED = 'unmapped'. -/
def FS_UNMAPPED : PyStr := "unmapped".toList

/-- Module constant FS_MGMT_MAPPED = 'mgmt_mapped'. -/
def FS_MGMT_MAPPED : PyStr := "mgmt_mapped".toList

/-- Module constant FS_INST_MAPPED = 'inst_mapped'. -/
def FS_INST_MAPPED : PyStr := "inst_mapped".toList

/-- nova task_states.DELETING. -/
def TASK_DELETING : PyStr := "deleting".toList

/-- nova task_states.SPAWNING. -/
def TASK_SPAWNING : PyStr := "spawning".toList

/-- Module constant TASK_STATES_FOR_DISCONNECT = [task_states.DELETING,
task_states.SPAWNING]. -/
def TASK_STATES_FOR_DISCONNECT : List PyStr := [TASK_DELETING, TASK_SPAWNING]

/-- The instance's `system_metadata` dict, embedded as an association list. -/
abbrev Metadata := List (PyStr × PyStr)

/-- Dict read: `instance.system_metadata.get(key)`. -/
def mdGet : Metadata → PyStr → Option PyStr
  | [], _ => none
  | (k, v) :: rest, key => if k = key then some v else mdGet rest key

/-- Dict write: `instance.system_metadata[key] = value` (replace in place,
append when the key is new). -/
def mdSet : Metadata → PyStr → PyStr → Metadata
  | [], key, val => [(key, val)]
  | (k, v) :: rest, key, val =>
    if k = key then (key, val) :: rest else (k, v) :: mdSet rest key val

/-- Key built by `_sys_fabric_state_key`: FABRIC_STATE_METADATA_KEY + '_' +
fabric. -/
def sysFabricStateKey (fabric : PyStr) : PyStr :=
  FABRIC_STATE_METADATA_KEY ++ '_' :: fabric

/-- Key built by `_sys_meta_fabric_key`: WWPN_SYSTEM_METADATA_KEY + '_' +
fabric. -/
def sysMetaFabricKey (fabric : PyStr) : PyStr :=
  WWPN_SYSTEM_METADATA_KEY ++ '_' :: fabric

/-- Python whitespace characters, the separators used by `str.split()`. -/
def isPySpace (c : Char) : Bool :=
  c = ' ' || c = '\t' || c = '\n' || c = '\r' || c = '\x0b' || c = '\x0c'

/-- Accumulator worker for `str.split()` (split on whitespace runs, dropping
empty tokens). -/
def pySplitWsAux : List Char → List Char → List PyStr
  | [], acc => if acc.isEmpty then [] else [acc.reverse]
  | c :: cs, acc =>
    if isPySpace c then
      if acc.isEmpty then pySplitWsAux cs [] else acc.reverse :: pySplitWsAux cs []
    else pySplitWsAux cs (c :: acc)

/-- Python `s.split()` with no argument: split on whitespace, dropping empty
tokens. -/
def pySplitWs (s : PyStr) : List PyStr := pySplitWsAux s []

/-- Accumulator worker for `str.split(sep)` with a one-character separator. -/
def splitOnCharAux (sep : Char) : List Char → List Char → List PyStr
  | [], acc => [acc.reverse]
  | c :: cs, acc =>
    if c = sep then acc.reverse :: splitOnCharAux sep cs []
    else splitOnCharAux sep cs (c :: acc)

/-- Python `s.split(sep)` for a one-character separator: keeps empty tokens,
and the empty string yields a single empty token. -/
def splitOnChar (sep : Char) (s : PyStr) : List PyStr := splitOnCharAux sep s []

/-- Python `sep.join(tokens)` for a one-character separator. -/
def joinSep (sep : Char) : List PyStr → PyStr
  | [] => []
  | [t] => t
  | t :: ts => t ++ sep :: joinSep sep ts

/-- Python extended slice `l[::3]`: every third element starting at index 0. -/
def everyThird : List α → List α
  | [] => []
  | [a] => [a]
  | [a, _] => [a]
  | a :: _ :: _ :: rest => a :: everyThird rest

/-- Python `zip` over three lists, truncating at the shortest. -/
def zip3 : List α → List β → List γ → List (α × β × γ)
  | a :: as, b :: bs, c :: cs => (a, b, c) :: zip3 as bs cs
  | _, _, _ => []

/-- A fabric port map as used by the adapter: a list of pairs of a physical
port WWPN and the string holding the two virtual WWPNs. -/
abbrev PortMap := List (PyStr × PyStr)

/-- The comma-joined token string `_set_fabric_meta` stores: for each pair the
physical WWPN followed by `v_wwpns.split()`. -/
def encodePortMap (pm : PortMap) : PyStr :=
  joinSep ',' (pm.flatMap (fun pv => pv.1 :: pySplitWs pv.2))

/-- `_set_fabric_meta`: encode the port map and store it under the fabric's
WWPN metadata key. -/
def setFabricMeta (md : Metadata) (fabric : PyStr) (pm : PortMap) : Metadata :=
  mdSet md (sysMetaFabricKey fabric) (encodePortMap pm)

/-- The decode step of `_get_fabric_meta`: split the stored value on commas
and regroup via `zip(wwpns[::3], wwpns[1::3], wwpns[2::3])`, rejoining each
virtual pair with a single space. -/
def decodeTokens (wwpns : List PyStr) : PortMap :=
  (zip3 (everyThird wwpns) (everyThird (wwpns.drop 1))
      (everyThird (wwpns.drop 2))).map
    (fun t => (t.1, t.2.1 ++ ' ' :: t.2.2))

/-- `_get_fabric_meta`: None when the key is absent, otherwise the decoded
port map. -/
def getFabricMeta (md : Metadata) (fabric : PyStr) : Option PortMap :=
  match mdGet md (sysMetaFabricKey fabric) with
  | none => none
  | some v => some (decodeTokens (splitOnChar ',' v))

/-- `_get_fabric_state`: read the fabric state; when absent, write FS_UNMAPPED
into the metadata (write-on-read) and return it.  Returns the state together
with the possibly updated metadata. -/
def getFabricState (md : Metadata) (fabric : PyStr) : PyStr × Metadata :=
  match mdGet md (sysFabricStateKey fabric) with
  | none => (FS_UNMAPPED, mdSet md (sysFabricStateKey fabric) FS_UNMAPPED)
  | some st => (st, md)

/-- `_set_fabric_state`: overwrite the fabric state key. -/
def setFabricState (md : Metadata) (fabric : PyStr) (st : PyStr) : Metadata :=
  mdSet md (sysFabricStateKey fabric) st

/-- The adapter's ambient configuration: `NPIV_FABRIC_WWPNS` (fabric names in
key order and the physical port WWPNs per fabric) and
`CONF.powervm.ports_per_fabric`. -/
structure Config where
  fabrics : List PyStr
  fabricPorts : PyStr → List PyStr
  portsPerFabric : Nat

/-- Oracle view of the external pypowervm collaborators (spec section 6).
`buildPair n` is the result of the n-th `build_wwpn_pair` call within one
`wwpns` invocation; `deriveMap` is `derive_npiv_map` as a function of the
VIOS wrapper order (wrappers abstracted by ids), the fabric's physical ports
and the virtual WWPNs; `initialVios` is the wrapper list obtained from the
initial VIOS read; `mgmtUuid` is the management partition's uuid. -/
structure Ext where
  buildPair : Nat → PyStr × PyStr
  deriveMap : List Nat → List PyStr → List PyStr → PortMap
  initialVios : List Nat
  mgmtUuid : PyStr

/-- Trace of the calls issued to the external management layer. -/
inductive Event
  | buildPair (idx : Nat)
  | derive (vios : List Nat) (fabricPorts : List PyStr) (vWwpns : List PyStr)
  | addMap (owner : PyStr) (pm : PortMap)
  | removeMap (pm : PortMap)
deriving DecidableEq

/-- `_build_wwpns_for_fabric`: call `build_wwpn_pair` once per port slot,
extending the WWPN list with each returned pair.  `ctr` numbers the pair
calls; the updated counter and the trace are returned alongside. -/
def buildWwpnsForFabric (ext : Ext) (ctr : Nat) : Nat → List PyStr × Nat × List Event
  | 0 => ([], ctr, [])
  | n + 1 =>
    let pair := ext.buildPair ctr
    let rest := buildWwpnsForFabric ext (ctr + 1) n
    (pair.1 :: pair.2 :: rest.1, rest.2.1, Event.buildPair ctr :: rest.2.2)

/-- `_add_npiv_mgmt_mappings`: when `_get_fabric_state` yields FS_UNMAPPED,
issue `add_npiv_port_mappings` against the management partition and set the
fabric state to FS_MGMT_MAPPED; otherwise do nothing. -/
def addNpivMgmtMappings (ext : Ext) (md : Metadata) (fabric : PyStr)
    (pm : PortMap) : Metadata × List Event :=
  let r := getFabricState md fabric
  if r.1 = FS_UNMAPPED then
    (setFabricState r.2 fabric FS_MGMT_MAPPED, [Event.addMap ext.mgmtUuid pm])
  else (r.2, [])

/-- `_remove_npiv_mgmt_mappings`: when `_get_fabric_state` yields
FS_MGMT_MAPPED, issue `remove_npiv_port_mappings` and set the state to
FS_UNMAPPED; otherwise do nothing.  When the port map argument is None the
external removal call raises (it iterates its mappings argument), which is
modelled as an error. -/
def removeNpivMgmtMappings (md : Metadata) (fabric : PyStr)
    (pm : Option PortMap) : Except Unit (Metadata × List Event) :=
  let r := getFabricState md fabric
  if r.1 = FS_MGMT_MAPPED then
    match pm with
    | none => Except.error ()
    | some l =>
      Except.ok (setFabricState r.2 fabric FS_UNMAPPED, [Event.removeMap l])
  else Except.ok (r.2, [])

/-- One iteration of the `connect_volume` fabric loop: read the fabric meta,
remove any management-partition mapping, add the NPIV mapping to the VM and
set the fabric state to FS_INST_MAPPED.  When the stored port map is absent
the external `add_npiv_port_mappings` call receives None and raises, which is
modelled as an error. -/
def connectFabric (vmUuid : PyStr) (md : Metadata) (fabric : PyStr) :
    Except Unit (Metadata × List Event) := do
  let pmOpt := getFabricMeta md fabric
  let r1 ← removeNpivMgmtMappings md fabric pmOpt
  match pmOpt with
  | none => Except.error ()
  | some pm =>
    Except.ok (setFabricState r1.1 fabric FS_INST_MAPPED,
      r1.2 ++ [Event.addMap vmUuid pm])

/-- The `connect_volume` loop over the configured fabrics. -/
def connectLoop (vmUuid : PyStr) (md : Metadata) :
    List PyStr → Except Unit (Metadata × List Event)
  | [] => Except.ok (md, [])
  | f :: fs => do
    let r1 ← connectFabric vmUuid md f
    let r2 ← connectLoop vmUuid r1.1 fs
    Except.ok (r2.1, r1.2 ++ r2.2)

/-- `connect_volume`: iterate the per-fabric body over every configured
fabric. -/
def connect_volume (cfg : Config) (vmUuid : PyStr) (md : Metadata) :
    Except Unit (Metadata × List Event) :=
  connectLoop vmUuid md cfg.fabrics

/-- The meta collection of `disconnect_volume`:
`npiv_port_mappings.extend(self._get_fabric_meta(instance, fabric))` per
fabric.  Extending a Python list with None raises, modelled as an error. -/
def collectDisconnectMaps (md : Metadata) : List PyStr → Except Unit PortMap
  | [] => Except.ok []
  | f :: fs =>
    match getFabricMeta md f with
    | none => Except.error ()
    | some pm => (collectDisconnectMaps md fs).map (fun rest => pm ++ rest)

/-- `disconnect_volume`: return immediately unless the instance task state is
in TASK_STATES_FOR_DISCONNECT; otherwise collect every fabric's stored port
map and issue a single batched `remove_npiv_port_mappings` call. -/
def disconnect_volume (cfg : Config) (taskState : Option PyStr)
    (md : Metadata) : Except Unit (Metadata × List Event) :=
  if taskState ∈ TASK_STATES_FOR_DISCONNECT.map some then
    (collectDisconnectMaps md cfg.fabrics).map
      (fun pms => (md, [Event.removeMap pms]))
  else Except.ok (md, [])

/-- The fast-path scan of `wwpns`: per fabric, read the stored meta; a missing
fabric makes the scan fail (`bad_fabric`), otherwise every triple's virtual
pair string is split on a single space and all pieces are concatenated. -/
def collectWwpnKeys (md : Metadata) : List PyStr → Option (List PyStr)
  | [] => some []
  | f :: fs =>
    match getFabricMeta md f with
    | none => none
    | some metas =>
      (collectWwpnKeys md fs).map
        (fun rest => metas.flatMap (fun mv => splitOnChar ' ' mv.2) ++ rest)

/-- The rebuild loop of `wwpns`: per fabric, build fresh virtual WWPNs, derive
the port map against the current VIOS wrapper order, store the meta, reverse
the wrapper list, and park the ports on the management partition when the
fabric is unmapped. -/
def rebuildLoop (cfg : Config) (ext : Ext) :
    List PyStr → List Nat → Nat → Metadata → List PyStr × Metadata × List Event
  | [], _, _, md => ([], md, [])
  | f :: fs, vios, ctr, md =>
    let b := buildWwpnsForFabric ext ctr cfg.portsPerFabric
    let pm := ext.deriveMap vios (cfg.fabricPorts f) b.1
    let md1 := setFabricMeta md f pm
    let r := addNpivMgmtMappings ext md1 f pm
    let rest := rebuildLoop cfg ext fs vios.reverse b.2.1 r.1
    (b.1 ++ rest.1, rest.2.1,
      b.2.2 ++ Event.derive vios (cfg.fabricPorts f) b.1 :: (r.2 ++ rest.2.2))

/-- `wwpns`: return the concatenated stored WWPNs when every fabric has a
stored meta, otherwise rebuild every fabric from scratch. -/
def wwpns (cfg : Config) (ext : Ext) (md : Metadata) :
    List PyStr × Metadata × List Event :=
  match collectWwpnKeys md cfg.fabrics with
  | some keys => (keys, md, [])
  | none => rebuildLoop cfg ext cfg.fabrics ext.initialVios 0 md

/-- Insert one mapping entry unless it is already present.  Modelled from the
spec: `addPortMapping` "must be safe to call when the mapping already is
present (idempotent on the collaborator side)" — re-adding an existing
mapping must not duplicate it. -/
def applyAddOne (cur : PortMap) (entry : PyStr × PyStr) : PortMap :=
  if entry ∈ cur then cur else cur ++ [entry]

/-- Modelled from the spec: the set of NPIV mappings the external management
layer holds for a given owner, folded over the adapter's event trace; only
`add_npiv_port_mappings` calls for that owner change it, and each call adds
exactly the entries not already present. -/
def applyAddEvents (owner : PyStr) (cur : PortMap) : List Event → PortMap
  | [] => cur
  | Event.addMap o pm :: evs =>
    applyAddEvents owner (if o = owner then pm.foldl applyAddOne cur else cur) evs
  | _ :: evs => applyAddEvents owner cur evs

/-- The VIOS wrapper orders passed to the successive `derive_npiv_map` calls
of a trace. -/
def deriveVios : List Event → List (List Nat)
  | [] => []
  | Event.derive v _ _ :: evs => v :: deriveVios evs
  | _ :: evs => deriveVios evs

/-! Basic laws of the metadata association list and the two key families. -/

theorem mdGet_mdSet_same (md : Metadata) (k v : PyStr) :
    mdGet (mdSet md k v) k = some v := by
  induction md with
  | nil => simp [mdGet, mdSet]
  | cons p rest ih =>
    by_cases h : p.1 = k
    · simp [mdGet, mdSet, h]
    · simp [mdGet, mdSet, h, ih]

theorem mdGet_mdSet_ne (md : Metadata) {k k' : PyStr} (v : PyStr)
    (h : k' ≠ k) : mdGet (mdSet md k v) k' = mdGet md k' := by
  induction md with
  | nil => simp [mdGet, mdSet, Ne.symm h]
  | cons p rest ih =>
    by_cases hp : p.1 = k
    · have hk' : ¬ k = k' := fun hh => h hh.symm
      have hp' : ¬ p.1 = k' := by rw [hp]; exact hk'
      simp only [mdSet, if_pos hp, mdGet, if_neg hk', if_neg hp']
    · by_cases hq : p.1 = k'
      · simp only [mdSet, if_neg hp, mdGet, if_pos hq]
      · simp only [mdSet, if_neg hp, mdGet, if_neg hq]
        exact ih

theorem mdSet_eq_of_mdGet (md : Metadata) {k v : PyStr}
    (h : mdGet md k = some v) : mdSet md k v = md := by
  induction md with
  | nil => simp [mdGet] at h
  | cons p rest ih =>
    by_cases hp : p.1 = k
    · simp only [mdGet, if_pos hp] at h
      injection h with h
      rw [mdSet, if_pos hp, ← hp, ← h, Prod.mk.eta]
    · simp only [mdGet, if_neg hp] at h
      simp only [mdSet, if_neg hp, ih h]

theorem fabricStateKeyChars :
    FABRIC_STATE_METADATA_KEY =
      ['f', 'a', 'b', 'r', 'i', 'c', '_', 's', 't', 'a', 't', 'e'] := rfl

theorem wwpnKeyChars :
    WWPN_SYSTEM_METADATA_KEY =
      ['n', 'p', 'i', 'v', '_', 'a', 'd', 'p', 't', '_', 'w', 'w', 'p', 'n', 's'] := rfl

theorem stateKey_ne_metaKey (f g : PyStr) :
    sysFabricStateKey f ≠ sysMetaFabricKey g := by
  intro h
  rw [sysFabricStateKey, sysMetaFabricKey, fabricStateKeyChars, wwpnKeyChars] at h
  have h1 := congrArg (fun l : List Char => l.take 1) h
  simp at h1

theorem metaKey_ne_stateKey (f g : PyStr) :
    sysMetaFabricKey f ≠ sysFabricStateKey g :=
  fun h => stateKey_ne_metaKey g f h.symm

theorem metaKey_inj {f g : PyStr} (h : sysMetaFabricKey f = sysMetaFabricKey g) :
    f = g := by
  rw [sysMetaFabricKey, sysMetaFabricKey] at h
  have h2 := List.append_cancel_left h
  simpa using h2

theorem stateKey_inj {f g : PyStr} (h : sysFabricStateKey f = sysFabricStateKey g) :
    f = g := by
  rw [sysFabricStateKey, sysFabricStateKey] at h
  have h2 := List.append_cancel_left h
  simpa using h2

/-! State accessors never touch meta keys; meta writes never touch state keys. -/

theorem getFabricState_meta (md : Metadata) (f g : PyStr) :
    mdGet (getFabricState md f).2 (sysMetaFabricKey g) =
      mdGet md (sysMetaFabricKey g) := by
  rw [getFabricState]
  cases h : mdGet md (sysFabricStateKey f) with
  | none => exact mdGet_mdSet_ne md _ (metaKey_ne_stateKey g f)
  | some st => rfl

theorem setFabricState_meta (md : Metadata) (f g st : PyStr) :
    mdGet (setFabricState md f st) (sysMetaFabricKey g) =
      mdGet md (sysMetaFabricKey g) :=
  mdGet_mdSet_ne md _ (metaKey_ne_stateKey g f)

theorem setFabricMeta_state (md : Metadata) (f g : PyStr) (pm : PortMap) :
    mdGet (setFabricMeta md f pm) (sysFabricStateKey g) =
      mdGet md (sysFabricStateKey g) :=
  mdGet_mdSet_ne md _ (stateKey_ne_metaKey g f)

theorem addNpivMgmtMappings_meta (ext : Ext) (md : Metadata) (f g : PyStr)
    (pm : PortMap) :
    mdGet (addNpivMgmtMappings ext md f pm).1 (sysMetaFabricKey g) =
      mdGet md (sysMetaFabricKey g) := by
  rw [addNpivMgmtMappings]
  by_cases h : (getFabricState md f).1 = FS_UNMAPPED
  · rw [if_pos h]
    exact (setFabricState_meta _ f g _).trans (getFabricState_meta md f g)
  · rw [if_neg h]
    exact getFabricState_meta md f g

/-! Laws of the Python-style split and join used by the fabric meta codec. -/

theorem everyThird_cons (a : α) (l : List α) :
    everyThird (a :: l) = a :: everyThird (l.drop 2) := by
  cases l with
  | nil => rfl
  | cons x t =>
    cases t with
    | nil => rfl
    | cons y t2 => rfl

theorem decodeTokens_cons3 (p a b : PyStr) (l : List PyStr) :
    decodeTokens (p :: a :: b :: l) = (p, a ++ ' ' :: b) :: decodeTokens l := by
  simp only [decodeTokens, everyThird_cons, List.drop_succ_cons, List.drop_zero,
    zip3, List.map_cons]

theorem splitOnCharAux_no_sep (sep : Char) (t : List Char) :
    ∀ (r acc : List Char), sep ∉ t →
      splitOnCharAux sep (t ++ r) acc = splitOnCharAux sep r (t.reverse ++ acc) := by
  induction t with
  | nil => intro r acc _; simp
  | cons c t ih =>
    intro r acc h
    have hc : ¬ c = sep := fun hh => h (by rw [hh]; exact List.mem_cons_self sep t)
    rw [List.cons_append, splitOnCharAux, if_neg hc,
      ih r (c :: acc) (fun hm => h (List.mem_cons_of_mem c hm))]
    simp [List.append_assoc]

theorem splitOnCharAux_all (sep : Char) (t acc : List Char) (h : sep ∉ t) :
    splitOnCharAux sep t acc = [acc.reverse ++ t] := by
  have h2 := splitOnCharAux_no_sep sep t [] acc h
  rw [List.append_nil] at h2
  rw [h2, splitOnCharAux]
  simp

theorem splitOnChar_joinSep (sep : Char) :
    ∀ ts : List PyStr, ts ≠ [] → (∀ t ∈ ts, sep ∉ t) →
      splitOnChar sep (joinSep sep ts) = ts := by
  intro ts
  induction ts with
  | nil => intro h; exact absurd rfl h
  | cons t ts ih =>
    intro _ hfree
    cases ts with
    | nil =>
      rw [splitOnChar]
      show splitOnCharAux sep (joinSep sep [t]) [] = [t]
      rw [joinSep, splitOnCharAux_all sep t [] (hfree t (List.mem_cons_self t []))]
      simp
    | cons t2 ts2 =>
      rw [splitOnChar]
      show splitOnCharAux sep (t ++ sep :: joinSep sep (t2 :: ts2)) [] = t :: t2 :: ts2
      rw [splitOnCharAux_no_sep sep t _ [] (hfree t (List.mem_cons_self t _)),
        splitOnCharAux, if_pos rfl]
      rw [List.append_nil, List.reverse_reverse]
      have h2 := ih (by simp) (fun x hx => hfree x (List.mem_cons_of_mem t hx))
      rw [splitOnChar] at h2
      rw [h2]

theorem pySplitWsAux_no_ws (t : List Char) :
    ∀ (r acc : List Char), (∀ c ∈ t, isPySpace c = false) →
      pySplitWsAux (t ++ r) acc = pySplitWsAux r (t.reverse ++ acc) := by
  induction t with
  | nil => intro r acc _; simp
  | cons c t ih =>
    intro r acc h
    have hc : isPySpace c = false := h c (List.mem_cons_self c t)
    rw [List.cons_append, pySplitWsAux, if_neg (by rw [hc]; exact Bool.false_ne_true),
      ih r (c :: acc) (fun x hx => h x (List.mem_cons_of_mem c hx))]
    simp [List.append_assoc]

theorem pySplitWsAux_all (t acc : List Char) (h : ∀ c ∈ t, isPySpace c = false)
    (hne : acc ≠ []) : pySplitWsAux t acc = [acc.reverse ++ t] := by
  have h2 := pySplitWsAux_no_ws t [] acc h
  rw [List.append_nil] at h2
  rw [h2, pySplitWsAux]
  have hne2 : ¬ (t.reverse ++ acc).isEmpty = true := by
    simp [List.isEmpty_iff, hne]
  rw [if_neg hne2]
  simp

theorem pySplitWs_pair (a b : List Char) (ha : a ≠ []) (hb : b ≠ [])
    (hwa : ∀ c ∈ a, isPySpace c = false) (hwb : ∀ c ∈ b, isPySpace c = false) :
    pySplitWs (a ++ ' ' :: b) = [a, b] := by
  rw [pySplitWs, pySplitWsAux_no_ws a (' ' :: b) [] hwa, List.append_nil,
    pySplitWsAux, if_pos (by decide)]
  have hrev : ¬ a.reverse.isEmpty = true := by
    simp [List.isEmpty_iff, ha]
  rw [if_neg hrev, List.reverse_reverse]
  have h3 := pySplitWsAux_no_ws b [] [] hwb
  rw [List.append_nil, List.append_nil] at h3
  rw [h3, pySplitWsAux, if_neg (by simp [List.isEmpty_iff, hb])]
  simp

/-- The shape the round-trip claim demands of a stored mapping element: a
comma-free physical WWPN paired with exactly two space-separated, non-empty,
comma-free virtual WWPNs. -/
def wellFormedEntry (pv : PyStr × PyStr) : Prop :=
  ',' ∉ pv.1 ∧ ∃ a b : PyStr, pv.2 = a ++ ' ' :: b ∧ a ≠ [] ∧ b ≠ [] ∧
    (∀ c ∈ a, isPySpace c = false ∧ c ≠ ',') ∧
    (∀ c ∈ b, isPySpace c = false ∧ c ≠ ',')

theorem flat_comma_free (pm : PortMap) (h : ∀ pv ∈ pm, wellFormedEntry pv) :
    ∀ t ∈ pm.flatMap (fun pv => pv.1 :: pySplitWs pv.2), ',' ∉ t := by
  induction pm with
  | nil => simp
  | cons pv pm ih =>
    obtain ⟨hp, a, b, hv, ha, hb, hwa, hwb⟩ := h pv (List.mem_cons_self pv pm)
    intro t ht
    rw [List.flatMap_cons, hv,
      pySplitWs_pair a b ha hb (fun c hc => (hwa c hc).1) (fun c hc => (hwb c hc).1)]
      at ht
    simp only [List.cons_append, List.nil_append, List.mem_cons] at ht
    rcases ht with rfl | rfl | rfl | ht
    · exact hp
    · exact fun hc => (hwa ',' hc).2 rfl
    · exact fun hc => (hwb ',' hc).2 rfl
    · exact ih (fun x hx => h x (List.mem_cons_of_mem pv hx)) t ht

theorem decode_flat (pm : PortMap) (h : ∀ pv ∈ pm, wellFormedEntry pv) :
    decodeTokens (pm.flatMap (fun pv => pv.1 :: pySplitWs pv.2)) = pm := by
  induction pm with
  | nil => rfl
  | cons pv pm ih =>
    obtain ⟨hp, a, b, hv, ha, hb, hwa, hwb⟩ := h pv (List.mem_cons_self pv pm)
    rw [List.flatMap_cons, hv,
      pySplitWs_pair a b ha hb (fun c hc => (hwa c hc).1) (fun c hc => (hwb c hc).1)]
    simp only [List.cons_append, List.nil_append]
    rw [decodeTokens_cons3, ih (fun x hx => h x (List.mem_cons_of_mem pv hx)),
      ← hv, Prod.mk.eta]

/-- C3: for every sequence of port mappings whose elements pair a comma-free
physical WWPN with a string of exactly two space-separated comma-free virtual
WWPNs, `_get_fabric_meta` after `_set_fabric_meta` on the same fabric key
returns exactly the stored ordered sequence. -/
theorem c3_fabric_meta_roundtrip (md : Metadata) (fabric : PyStr) (pm : PortMap)
    (h : ∀ pv ∈ pm, wellFormedEntry pv) :
    getFabricMeta (setFabricMeta md fabric pm) fabric = some pm := by
  rw [getFabricMeta, setFabricMeta, mdGet_mdSet_same]
  cases pm with
  | nil => rfl
  | cons pv pm2 =>
    show some (decodeTokens (splitOnChar ',' (encodePortMap (pv :: pm2)))) = _
    rw [encodePortMap,
      splitOnChar_joinSep ',' _ (by simp [List.flatMap_cons]) (flat_comma_free _ h),
      decode_flat _ h]

/-- Witness for C3: a concrete two-element port map round-trips. -/
theorem c3_witness :
    getFabricMeta (setFabricMeta [] "A".toList
        [("p1".toList, "va vb".toList), ("p2".toList, "vc vd".toList)]) "A".toList =
      some [("p1".toList, "va vb".toList), ("p2".toList, "vc vd".toList)] := by
  apply c3_fabric_meta_roundtrip
  intro pv hpv
  simp only [List.mem_cons, List.not_mem_nil, or_false] at hpv
  rcases hpv with rfl | rfl
  · exact ⟨by decide, "va".toList, "vb".toList, by decide, by decide, by decide,
      by decide, by decide⟩
  · exact ⟨by decide, "vc".toList, "vd".toList, by decide, by decide, by decide,
      by decide, by decide⟩

/-! Length facts for the decoder: it never fails, it truncates. -/

theorem everyThird_length (l : List α) :
    (everyThird l).length = (l.length + 2) / 3 := by
  induction l using everyThird.induct with
  | case1 => simp [everyThird]
  | case2 a => simp [everyThird]
  | case3 a x => simp [everyThird]
  | case4 a x y rest ih =>
    show (a :: everyThird rest).length = _
    simp only [List.length_cons, ih]
    omega

theorem zip3_length (as : List α) (bs : List β) (cs : List γ) :
    (zip3 as bs cs).length = min (min as.length bs.length) cs.length := by
  induction as generalizing bs cs with
  | nil => cases bs <;> cases cs <;> simp [zip3]
  | cons a as ih =>
    cases bs with
    | nil => simp [zip3]
    | cons b bs =>
      cases cs with
      | nil => simp [zip3]
      | cons c cs =>
        simp only [zip3, List.length_cons, ih]
        omega

theorem decodeTokens_length (ts : List PyStr) :
    (decodeTokens ts).length = ts.length / 3 := by
  rw [decodeTokens, List.length_map, zip3_length, everyThird_length,
    everyThird_length, everyThird_length, List.length_drop, List.length_drop]
  omega

/-- C8 counterexample: a stored port-map string with 4 comma-separated tokens
(not a multiple of 3) is decoded without any error signal to a single triple,
silently dropping the trailing token. -/
theorem c8_counterexample :
    (splitOnChar ',' "p,a,b,x".toList).length = 4 ∧ ¬ (4 % 3 = 0) ∧
      getFabricMeta [(sysMetaFabricKey "A".toList, "p,a,b,x".toList)] "A".toList =
        some [("p".toList, "a b".toList)] := by
  refine ⟨by decide, by decide, by decide⟩

/-- C8 amended: `_get_fabric_meta` never signals an integrity error for a
present key; a stored string whose comma token count is not a multiple of 3
is silently truncated to the longest prefix of complete triples, the decoded
sequence having exactly tokenCount / 3 elements. -/
theorem c8_decode_truncates (md : Metadata) (f v : PyStr)
    (h : mdGet md (sysMetaFabricKey f) = some v) :
    getFabricMeta md f = some (decodeTokens (splitOnChar ',' v)) ∧
      (decodeTokens (splitOnChar ',' v)).length = (splitOnChar ',' v).length / 3 := by
  constructor
  · rw [getFabricMeta, h]
  · exact decodeTokens_length _

/-- Witness for C8's amended theorem at the 4-token stored value. -/
theorem c8_witness :
    getFabricMeta [(sysMetaFabricKey "B".toList, "p,a,b,x".toList)] "B".toList =
        some (decodeTokens (splitOnChar ',' "p,a,b,x".toList)) ∧
      (decodeTokens (splitOnChar ',' "p,a,b,x".toList)).length =
        (splitOnChar ',' "p,a,b,x".toList).length / 3 :=
  c8_decode_truncates [(sysMetaFabricKey "B".toList, "p,a,b,x".toList)]
    "B".toList "p,a,b,x".toList (by decide)

theorem getFabricState_of_some {md : Metadata} {f st : PyStr}
    (h : mdGet md (sysFabricStateKey f) = some st) :
    getFabricState md f = (st, md) := by
  simp [getFabricState, h]

theorem getFabricState_of_none {md : Metadata} {f : PyStr}
    (h : mdGet md (sysFabricStateKey f) = none) :
    getFabricState md f =
      (FS_UNMAPPED, mdSet md (sysFabricStateKey f) FS_UNMAPPED) := by
  simp [getFabricState, h]

theorem fs_mgmt_ne_unmapped : FS_MGMT_MAPPED ≠ FS_UNMAPPED := by decide

theorem fs_inst_ne_unmapped : FS_INST_MAPPED ≠ FS_UNMAPPED := by decide

/-- C6: `_add_npiv_mgmt_mappings` issues the add call and transitions to
FS_MGMT_MAPPED exactly when `_get_fabric_state` yields FS_UNMAPPED; with a
stored FS_MGMT_MAPPED or FS_INST_MAPPED state it makes no call and leaves the
metadata untouched; and a second call right after a first is a no-op. -/
theorem c6_add_mgmt_guarded (ext : Ext) (md : Metadata) (fabric : PyStr)
    (pm : PortMap) :
    ((getFabricState md fabric).1 = FS_UNMAPPED →
      addNpivMgmtMappings ext md fabric pm =
        (setFabricState (getFabricState md fabric).2 fabric FS_MGMT_MAPPED,
          [Event.addMap ext.mgmtUuid pm])) ∧
    ((mdGet md (sysFabricStateKey fabric) = some FS_MGMT_MAPPED ∨
      mdGet md (sysFabricStateKey fabric) = some FS_INST_MAPPED) →
      addNpivMgmtMappings ext md fabric pm = (md, [])) ∧
    (addNpivMgmtMappings ext (addNpivMgmtMappings ext md fabric pm).1 fabric pm =
      ((addNpivMgmtMappings ext md fabric pm).1, [])) := by
  refine ⟨?_, ?_, ?_⟩
  · intro h
    rw [addNpivMgmtMappings, if_pos h]
  · intro h
    rcases h with h | h
    · rw [addNpivMgmtMappings, getFabricState_of_some h, if_neg fs_mgmt_ne_unmapped]
    · rw [addNpivMgmtMappings, getFabricState_of_some h, if_neg fs_inst_ne_unmapped]
  · by_cases h : (getFabricState md fabric).1 = FS_UNMAPPED
    · have hin : addNpivMgmtMappings ext md fabric pm =
          (setFabricState (getFabricState md fabric).2 fabric FS_MGMT_MAPPED,
            [Event.addMap ext.mgmtUuid pm]) := by
        rw [addNpivMgmtMappings, if_pos h]
      rw [hin]
      dsimp only
      have h2 : mdGet (setFabricState (getFabricState md fabric).2 fabric
          FS_MGMT_MAPPED) (sysFabricStateKey fabric) = some FS_MGMT_MAPPED :=
        mdGet_mdSet_same _ _ _
      rw [addNpivMgmtMappings, getFabricState_of_some h2,
        if_neg fs_mgmt_ne_unmapped]
    · cases hk : mdGet md (sysFabricStateKey fabric) with
      | none =>
        exact absurd (by rw [getFabricState_of_none hk]) h
      | some st =>
        have hst : ¬ st = FS_UNMAPPED := by
          intro hh
          exact h (by rw [getFabricState_of_some hk, hh])
        have hin : addNpivMgmtMappings ext md fabric pm = (md, []) := by
          rw [addNpivMgmtMappings, getFabricState_of_some hk, if_neg hst]
        rw [hin]
        dsimp only
        rw [addNpivMgmtMappings, getFabricState_of_some hk, if_neg hst]

/-- A concrete external oracle used by the witnesses. -/
def extW : Ext where
  buildPair := fun n =>
    ('v' :: Char.ofNat (48 + n) :: [], 'w' :: Char.ofNat (48 + n) :: [])
  deriveMap := fun _ ports vws =>
    match vws with
    | a :: b :: _ => [(ports.headD [], a ++ ' ' :: b)]
    | _ => []
  initialVios := [1, 2]
  mgmtUuid := "m".toList

/-- Witness for C6: a fresh fabric is parked and transitioned, and a fabric
already FS_INST_MAPPED is left untouched with no call. -/
theorem c6_witness :
    addNpivMgmtMappings extW [] "A".toList [] =
      (setFabricState (getFabricState [] "A".toList).2 "A".toList FS_MGMT_MAPPED,
        [Event.addMap extW.mgmtUuid []]) ∧
    addNpivMgmtMappings extW [(sysFabricStateKey "A".toList, FS_INST_MAPPED)]
        "A".toList [] =
      ([(sysFabricStateKey "A".toList, FS_INST_MAPPED)], []) :=
  ⟨(c6_add_mgmt_guarded extW [] "A".toList []).1 (by decide),
   (c6_add_mgmt_guarded extW [(sysFabricStateKey "A".toList, FS_INST_MAPPED)]
      "A".toList []).2.1 (Or.inr (by decide))⟩

theorem collectDisconnectMaps_of_all {md : Metadata} :
    ∀ fs : List PyStr, (∀ f ∈ fs, (getFabricMeta md f).isSome) →
      collectDisconnectMaps md fs =
        Except.ok (fs.flatMap (fun f => (getFabricMeta md f).getD [])) := by
  intro fs
  induction fs with
  | nil => intro _; rfl
  | cons f fs ih =>
    intro h
    cases hm : getFabricMeta md f with
    | none =>
      have h2 := h f (List.mem_cons_self f fs)
      rw [hm] at h2
      exact absurd h2 (by simp)
    | some pm =>
      rw [collectDisconnectMaps, hm, ih (fun x hx => h x (List.mem_cons_of_mem f hx))]
      simp [List.flatMap_cons, hm, Except.map]

/-- C4: `disconnect_volume` with a task state outside
TASK_STATES_FOR_DISCONNECT returns immediately with no removal call; with a
teardown task state (and every fabric's port map stored) it collects all
fabrics' maps and issues exactly one batched removal call. -/
theorem c4_disconnect_gating (cfg : Config) (ts : Option PyStr) (md : Metadata) :
    (ts ∉ TASK_STATES_FOR_DISCONNECT.map some →
      disconnect_volume cfg ts md = Except.ok (md, [])) ∧
    (ts ∈ TASK_STATES_FOR_DISCONNECT.map some →
      (∀ f ∈ cfg.fabrics, (getFabricMeta md f).isSome) →
      disconnect_volume cfg ts md =
        Except.ok (md, [Event.removeMap
          (cfg.fabrics.flatMap (fun f => (getFabricMeta md f).getD []))])) := by
  constructor
  · intro h
    rw [disconnect_volume, if_neg h]
  · intro h hall
    rw [disconnect_volume, if_pos h, collectDisconnectMaps_of_all cfg.fabrics hall]
    rfl

/-- A concrete two-fabric configuration used by the witnesses. -/
def cfgW : Config where
  fabrics := ["A".toList, "B".toList]
  fabricPorts := fun _ => ["pA".toList, "pB".toList]
  portsPerFabric := 1

/-- A concrete metadata store holding a port map for both fabrics of cfgW. -/
def mdW : Metadata :=
  [(sysMetaFabricKey "A".toList, "p,a,b".toList),
   (sysMetaFabricKey "B".toList, "q,c,d".toList)]

/-- Witness for C4: a resizing task state removes nothing; a deleting task
state issues the single batched removal over both fabrics. -/
theorem c4_witness :
    disconnect_volume cfgW (some "resizing".toList) mdW = Except.ok (mdW, []) ∧
    disconnect_volume cfgW (some TASK_DELETING) mdW =
      Except.ok (mdW, [Event.removeMap
        (cfgW.fabrics.flatMap (fun f => (getFabricMeta mdW f).getD []))]) :=
  ⟨(c4_disconnect_gating cfgW (some "resizing".toList) mdW).1 (by decide),
   (c4_disconnect_gating cfgW (some TASK_DELETING) mdW).2 (by decide) (by decide)⟩

theorem fs_inst_ne_mgmt : FS_INST_MAPPED ≠ FS_MGMT_MAPPED := by decide

theorem fs_unmapped_ne_mgmt : FS_UNMAPPED ≠ FS_MGMT_MAPPED := by decide

theorem setFabricState_state_ne {g f : PyStr} (md : Metadata) (st : PyStr)
    (h : g ≠ f) :
    mdGet (setFabricState md f st) (sysFabricStateKey g) =
      mdGet md (sysFabricStateKey g) :=
  mdGet_mdSet_ne md _ (fun hh => h (stateKey_inj hh))

theorem getFabricState_state_ne {g f : PyStr} (md : Metadata) (h : g ≠ f) :
    mdGet (getFabricState md f).2 (sysFabricStateKey g) =
      mdGet md (sysFabricStateKey g) := by
  cases hk : mdGet md (sysFabricStateKey f) with
  | none =>
    rw [getFabricState_of_none hk]
    exact mdGet_mdSet_ne md _ (fun hh => h (stateKey_inj hh))
  | some st => rw [getFabricState_of_some hk]

theorem removeNpivMgmtMappings_some (md : Metadata) (f : PyStr) (pm : PortMap) :
    removeNpivMgmtMappings md f (some pm) =
      if (getFabricState md f).1 = FS_MGMT_MAPPED then
        Except.ok (setFabricState (getFabricState md f).2 f FS_UNMAPPED,
          [Event.removeMap pm])
      else Except.ok ((getFabricState md f).2, []) := by
  rw [removeNpivMgmtMappings]

/-- A fabric whose stored state is any present value other than
FS_MGMT_MAPPED is connected by a single direct state write to
FS_INST_MAPPED and a single add call for the VM: no management removal, no
intermediate state. -/
theorem connectFabric_of_not_mgmt (vm : PyStr) {md : Metadata} {f : PyStr}
    {pm : PortMap} {st : PyStr} (hm : getFabricMeta md f = some pm)
    (hst : mdGet md (sysFabricStateKey f) = some st)
    (hne : st ≠ FS_MGMT_MAPPED) :
    connectFabric vm md f =
      Except.ok (setFabricState md f FS_INST_MAPPED, [Event.addMap vm pm]) := by
  have hrm : removeNpivMgmtMappings md f (some pm) = Except.ok (md, []) := by
    rw [removeNpivMgmtMappings_some, getFabricState_of_some hst, if_neg hne]
  simp [connectFabric, hm, hrm, Bind.bind, Except.bind]

/-- Completion and effect of one `connect_volume` fabric iteration whenever
the fabric's port map is stored: the resulting metadata has that fabric's
state FS_INST_MAPPED, every meta key unchanged, and every other fabric's
state key unchanged. -/
theorem connectFabric_ok_spec (vm : PyStr) {md : Metadata} {f : PyStr}
    {pm : PortMap} (hm : getFabricMeta md f = some pm) :
    ∃ md1 evs1, connectFabric vm md f = Except.ok (md1, evs1) ∧
      mdGet md1 (sysFabricStateKey f) = some FS_INST_MAPPED ∧
      (∀ g, mdGet md1 (sysMetaFabricKey g) = mdGet md (sysMetaFabricKey g)) ∧
      (∀ g, g ≠ f →
        mdGet md1 (sysFabricStateKey g) = mdGet md (sysFabricStateKey g)) := by
  by_cases hmg : (getFabricState md f).1 = FS_MGMT_MAPPED
  · have hrm : removeNpivMgmtMappings md f (some pm) =
        Except.ok (setFabricState (getFabricState md f).2 f FS_UNMAPPED,
          [Event.removeMap pm]) := by
      rw [removeNpivMgmtMappings_some, if_pos hmg]
    refine ⟨setFabricState (setFabricState (getFabricState md f).2 f FS_UNMAPPED)
        f FS_INST_MAPPED,
      [Event.removeMap pm, Event.addMap vm pm],
      by simp [connectFabric, hm, hrm, Bind.bind, Except.bind],
      mdGet_mdSet_same _ _ _, ?_, ?_⟩
    · intro g
      rw [setFabricState_meta, setFabricState_meta, getFabricState_meta]
    · intro g hg
      rw [setFabricState_state_ne _ _ hg, setFabricState_state_ne _ _ hg,
        getFabricState_state_ne _ hg]
  · have hrm : removeNpivMgmtMappings md f (some pm) =
        Except.ok ((getFabricState md f).2, []) := by
      rw [removeNpivMgmtMappings_some, if_neg hmg]
    refine ⟨setFabricState (getFabricState md f).2 f FS_INST_MAPPED,
      [Event.addMap vm pm],
      by simp [connectFabric, hm, hrm, Bind.bind, Except.bind],
      mdGet_mdSet_same _ _ _, ?_, ?_⟩
    · intro g
      rw [setFabricState_meta, getFabricState_meta]
    · intro g hg
      rw [setFabricState_state_ne _ _ hg, getFabricState_state_ne _ hg]

/-! The collaborator mapping set grows monotonically under add events and is
unchanged by re-adding entries already present. -/

theorem mem_applyAddOne_of_mem {cur : PortMap} {x : PyStr × PyStr}
    (e : PyStr × PyStr) (h : x ∈ cur) : x ∈ applyAddOne cur e := by
  by_cases he : e ∈ cur <;> simp [applyAddOne, he, h]

theorem self_mem_applyAddOne (cur : PortMap) (e : PyStr × PyStr) :
    e ∈ applyAddOne cur e := by
  by_cases he : e ∈ cur <;> simp [applyAddOne, he]

theorem mem_foldl_applyAddOne_of_mem (pm : PortMap) :
    ∀ (cur : PortMap) (x : PyStr × PyStr), x ∈ cur →
      x ∈ pm.foldl applyAddOne cur := by
  induction pm with
  | nil => intro cur x h; exact h
  | cons e pm ih =>
    intro cur x h
    rw [List.foldl_cons]
    exact ih _ x (mem_applyAddOne_of_mem e h)

theorem mem_foldl_applyAddOne_of_mem_pm (pm : PortMap) :
    ∀ (cur : PortMap) (x : PyStr × PyStr), x ∈ pm →
      x ∈ pm.foldl applyAddOne cur := by
  induction pm with
  | nil => intro cur x h; simp at h
  | cons e pm ih =>
    intro cur x h
    rw [List.foldl_cons]
    rcases List.mem_cons.mp h with rfl | h
    · exact mem_foldl_applyAddOne_of_mem pm _ x (self_mem_applyAddOne cur x)
    · exact ih _ x h

theorem foldl_applyAddOne_of_subset (pm : PortMap) :
    ∀ cur : PortMap, (∀ x ∈ pm, x ∈ cur) → pm.foldl applyAddOne cur = cur := by
  induction pm with
  | nil => intro cur _; rfl
  | cons e pm ih =>
    intro cur h
    rw [List.foldl_cons, applyAddOne, if_pos (h e (List.mem_cons_self e pm))]
    exact ih cur (fun x hx => h x (List.mem_cons_of_mem e hx))

theorem mem_applyAddEvents_of_mem (owner : PyStr) (l : List Event) :
    ∀ (cur : PortMap) (x : PyStr × PyStr), x ∈ cur →
      x ∈ applyAddEvents owner cur l := by
  induction l with
  | nil => intro cur x h; exact h
  | cons e l ih =>
    intro cur x h
    cases e with
    | addMap o pm =>
      rw [applyAddEvents]
      by_cases ho : o = owner
      · rw [if_pos ho]
        exact ih _ x (mem_foldl_applyAddOne_of_mem pm cur x h)
      · rw [if_neg ho]
        exact ih _ x h
    | buildPair i => exact ih cur x h
    | derive a b c => exact ih cur x h
    | removeMap pm => exact ih cur x h

theorem mem_addMap_applyAddEvents (owner : PyStr) (l : List Event) :
    ∀ (cur : PortMap) (pm : PortMap), Event.addMap owner pm ∈ l →
      ∀ x ∈ pm, x ∈ applyAddEvents owner cur l := by
  induction l with
  | nil => intro cur pm h; simp at h
  | cons e l ih =>
    intro cur pm h x hx
    rcases List.mem_cons.mp h with he | htl
    · rw [← he, applyAddEvents, if_pos rfl]
      exact mem_applyAddEvents_of_mem owner l _ x
        (mem_foldl_applyAddOne_of_mem_pm pm cur x hx)
    · cases e with
      | addMap o pm2 =>
        rw [applyAddEvents]
        by_cases ho : o = owner
        · rw [if_pos ho]
          exact ih _ pm htl x hx
        · rw [if_neg ho]
          exact ih _ pm htl x hx
      | buildPair i => exact ih cur pm htl x hx
      | derive a b c => exact ih cur pm htl x hx
      | removeMap pm2 => exact ih cur pm htl x hx

theorem applyAddEvents_eq_self (owner : PyStr) (l : List Event) :
    ∀ cur : PortMap,
      (∀ pm, Event.addMap owner pm ∈ l → ∀ x ∈ pm, x ∈ cur) →
      applyAddEvents owner cur l = cur := by
  induction l with
  | nil => intro cur _; rfl
  | cons e l ih =>
    intro cur h
    cases e with
    | addMap o pm =>
      by_cases ho : o = owner
      · subst ho
        rw [applyAddEvents, if_pos rfl,
          foldl_applyAddOne_of_subset pm cur (h pm (List.mem_cons_self _ _))]
        exact ih cur (fun pm2 hpm2 => h pm2 (List.mem_cons_of_mem _ hpm2))
      · rw [applyAddEvents, if_neg ho]
        exact ih cur (fun pm2 hpm2 => h pm2 (List.mem_cons_of_mem _ hpm2))
    | buildPair i =>
      exact ih cur (fun pm2 hpm2 => h pm2 (List.mem_cons_of_mem _ hpm2))
    | derive a b c =>
      exact ih cur (fun pm2 hpm2 => h pm2 (List.mem_cons_of_mem _ hpm2))
    | removeMap pm2 =>
      exact ih cur (fun pm3 hpm3 => h pm3 (List.mem_cons_of_mem _ hpm3))

theorem applyAddEvents_idem (owner : PyStr) (s : PortMap) (l : List Event) :
    applyAddEvents owner (applyAddEvents owner s l) l =
      applyAddEvents owner s l :=
  applyAddEvents_eq_self owner l _
    (fun pm hpm x hx => mem_addMap_applyAddEvents owner l s pm hpm x hx)

theorem connectLoop_inst {vm : PyStr} :
    ∀ (fs : List PyStr) (md : Metadata),
      (∀ f ∈ fs, mdGet md (sysFabricStateKey f) = some FS_INST_MAPPED ∧
        (getFabricMeta md f).isSome) →
      connectLoop vm md fs =
        Except.ok (md, fs.flatMap
          (fun f => [Event.addMap vm ((getFabricMeta md f).getD [])])) := by
  intro fs
  induction fs with
  | nil => intro md _; rfl
  | cons f fs ih =>
    intro md h
    obtain ⟨hst, hm⟩ := h f (List.mem_cons_self f fs)
    obtain ⟨pm, hpm⟩ := Option.isSome_iff_exists.mp hm
    have hcf := connectFabric_of_not_mgmt vm hpm hst fs_inst_ne_mgmt
    have hset : setFabricState md f FS_INST_MAPPED = md := mdSet_eq_of_mdGet md hst
    rw [hset] at hcf
    have hloop := ih md (fun x hx => h x (List.mem_cons_of_mem f hx))
    simp [connectLoop, Bind.bind, Except.bind, hcf, hloop, List.flatMap_cons, hpm]

/-- C5: when every fabric's stored state is FS_INST_MAPPED (the situation
right after a completed `connect_volume`), another `connect_volume` issues no
management-partition removal call, leaves the stored states and port maps
exactly as they were, repeats identically on its own output, and re-applying
its add calls to the collaborator's mapping set duplicates nothing. -/
theorem c5_connect_inst_mapped_noop (cfg : Config) (vm : PyStr) (md : Metadata)
    (h : ∀ f ∈ cfg.fabrics,
      mdGet md (sysFabricStateKey f) = some FS_INST_MAPPED ∧
        (getFabricMeta md f).isSome) :
    connect_volume cfg vm md =
        Except.ok (md, cfg.fabrics.flatMap
          (fun f => [Event.addMap vm ((getFabricMeta md f).getD [])])) ∧
      (∀ pm, Event.removeMap pm ∉ cfg.fabrics.flatMap
        (fun f => [Event.addMap vm ((getFabricMeta md f).getD [])])) ∧
      (∀ md2 evs2, connect_volume cfg vm md = Except.ok (md2, evs2) →
        connect_volume cfg vm md2 = Except.ok (md2, evs2)) ∧
      (∀ s, applyAddEvents vm
          (applyAddEvents vm s (cfg.fabrics.flatMap
            (fun f => [Event.addMap vm ((getFabricMeta md f).getD [])])))
          (cfg.fabrics.flatMap
            (fun f => [Event.addMap vm ((getFabricMeta md f).getD [])])) =
        applyAddEvents vm s (cfg.fabrics.flatMap
          (fun f => [Event.addMap vm ((getFabricMeta md f).getD [])]))) := by
  have h1 : connect_volume cfg vm md =
      Except.ok (md, cfg.fabrics.flatMap
        (fun f => [Event.addMap vm ((getFabricMeta md f).getD [])])) :=
    connectLoop_inst cfg.fabrics md h
  refine ⟨h1, ?_, ?_, fun s => applyAddEvents_idem vm s _⟩
  · intro pm hmem
    simp [List.mem_flatMap] at hmem
  · intro md2 evs2 h2
    rw [h1] at h2
    injection h2 with h2
    injection h2 with h2a h2b
    rw [← h2a, ← h2b]
    exact h1

/-- A metadata store where both fabrics of cfgW hold a port map and the
state FS_INST_MAPPED. -/
def mdW2 : Metadata :=
  [(sysMetaFabricKey "A".toList, "p,a,b".toList),
   (sysFabricStateKey "A".toList, FS_INST_MAPPED),
   (sysMetaFabricKey "B".toList, "q,c,d".toList),
   (sysFabricStateKey "B".toList, FS_INST_MAPPED)]

/-- Witness for C5: on a concrete fully connected instance, connect_volume
returns the metadata unchanged with only add events. -/
theorem c5_witness :
    connect_volume cfgW "i".toList mdW2 =
      Except.ok (mdW2, cfgW.fabrics.flatMap
        (fun f => [Event.addMap "i".toList ((getFabricMeta mdW2 f).getD [])])) :=
  (c5_connect_inst_mapped_noop cfgW "i".toList mdW2 (by decide)).1

theorem connectLoop_ok_states (vm : PyStr) :
    ∀ (fs : List PyStr) (md : Metadata),
      (∀ f ∈ fs, (getFabricMeta md f).isSome) →
      ∃ md2 evs, connectLoop vm md fs = Except.ok (md2, evs) ∧
        (∀ f ∈ fs, mdGet md2 (sysFabricStateKey f) = some FS_INST_MAPPED) ∧
        (∀ g, mdGet md2 (sysMetaFabricKey g) = mdGet md (sysMetaFabricKey g)) ∧
        (∀ g, mdGet md2 (sysFabricStateKey g) = some FS_INST_MAPPED ∨
          mdGet md2 (sysFabricStateKey g) = mdGet md (sysFabricStateKey g)) := by
  intro fs
  induction fs with
  | nil =>
    intro md _
    exact ⟨md, [], rfl, by simp, fun g => rfl, fun g => Or.inr rfl⟩
  | cons f fs ih =>
    intro md h
    obtain ⟨pm, hpm⟩ :=
      Option.isSome_iff_exists.mp (h f (List.mem_cons_self f fs))
    obtain ⟨md1, evs1, hcf, hst1, hmeta1, hstate1⟩ :=
      connectFabric_ok_spec vm hpm
    have hall1 : ∀ x ∈ fs, (getFabricMeta md1 x).isSome := by
      intro x hx
      have hmx : getFabricMeta md1 x = getFabricMeta md x := by
        rw [getFabricMeta, getFabricMeta, hmeta1 x]
      rw [hmx]
      exact h x (List.mem_cons_of_mem f hx)
    obtain ⟨md2, evs2, hloop, hst2, hmeta2, hstate2⟩ := ih md1 hall1
    refine ⟨md2, evs1 ++ evs2, ?_, ?_, ?_, ?_⟩
    · simp [connectLoop, Bind.bind, Except.bind, hcf, hloop]
    · intro x hx
      rcases List.mem_cons.mp hx with rfl | hx
      · rcases hstate2 x with h2 | h2
        · exact h2
        · rw [h2]
          exact hst1
      · exact hst2 x hx
    · intro g
      rw [hmeta2 g, hmeta1 g]
    · intro g
      rcases hstate2 g with h2 | h2
      · exact Or.inl h2
      · by_cases hg : g = f
        · subst hg
          rw [h2]
          exact Or.inl hst1
        · right
          rw [h2, hstate1 g hg]

/-- C10: given every fabric's port map is stored (so the external add calls
can proceed), `connect_volume` completes and leaves every configured fabric's
stored state FS_INST_MAPPED regardless of its prior state; in particular a
fabric whose state is FS_UNMAPPED is moved by one direct write to
FS_INST_MAPPED, with no FS_MGMT_MAPPED intermediate and no management
removal call. -/
theorem c10_connect_sets_inst_unconditionally (cfg : Config) (vm : PyStr)
    (md : Metadata) (hall : ∀ f ∈ cfg.fabrics, (getFabricMeta md f).isSome) :
    (∃ md2 evs, connect_volume cfg vm md = Except.ok (md2, evs) ∧
      ∀ f ∈ cfg.fabrics, mdGet md2 (sysFabricStateKey f) = some FS_INST_MAPPED) ∧
    (∀ f pm, getFabricMeta md f = some pm →
      mdGet md (sysFabricStateKey f) = some FS_UNMAPPED →
      connectFabric vm md f =
        Except.ok (setFabricState md f FS_INST_MAPPED,
          [Event.addMap vm pm])) := by
  constructor
  · obtain ⟨md2, evs, hl, hst, _, _⟩ :=
      connectLoop_ok_states vm cfg.fabrics md hall
    exact ⟨md2, evs, hl, hst⟩
  · intro f pm hm hst
    exact connectFabric_of_not_mgmt vm hm hst fs_unmapped_ne_mgmt

/-- A metadata store where fabric A is FS_UNMAPPED with a stored map and
fabric B has a stored map with no state key. -/
def mdW3 : Metadata :=
  [(sysMetaFabricKey "A".toList, "p,a,b".toList),
   (sysFabricStateKey "A".toList, FS_UNMAPPED),
   (sysMetaFabricKey "B".toList, "q,c,d".toList)]

/-- Witness for C10: the unmapped fabric A of mdW3 is connected by one direct
state write to FS_INST_MAPPED and one add call. -/
theorem c10_witness :
    connectFabric "i".toList mdW3 "A".toList =
      Except.ok (setFabricState mdW3 "A".toList FS_INST_MAPPED,
        [Event.addMap "i".toList [("p".toList, "a b".toList)]]) :=
  (c10_connect_sets_inst_unconditionally cfgW "i".toList mdW3 (by decide)).2
    "A".toList [("p".toList, "a b".toList)] (by decide) (by decide)

theorem collectWwpnKeys_of_all {md : Metadata} :
    ∀ fs : List PyStr, (∀ f ∈ fs, (getFabricMeta md f).isSome) →
      collectWwpnKeys md fs = some (fs.flatMap
        (fun f => ((getFabricMeta md f).getD []).flatMap
          (fun mv => splitOnChar ' ' mv.2))) := by
  intro fs
  induction fs with
  | nil => intro _; rfl
  | cons f fs ih =>
    intro h
    cases hm : getFabricMeta md f with
    | none =>
      have h2 := h f (List.mem_cons_self f fs)
      rw [hm] at h2
      exact absurd h2 (by simp)
    | some metas =>
      rw [collectWwpnKeys, hm, ih (fun x hx => h x (List.mem_cons_of_mem f hx))]
      simp [List.flatMap_cons, hm]

theorem collectWwpnKeys_none {md : Metadata} :
    ∀ fs : List PyStr, (∃ f ∈ fs, getFabricMeta md f = none) →
      collectWwpnKeys md fs = none := by
  intro fs
  induction fs with
  | nil => intro h; simp at h
  | cons f fs ih =>
    intro h
    cases hm : getFabricMeta md f with
    | none => rw [collectWwpnKeys, hm]
    | some metas =>
      obtain ⟨g, hg, hgn⟩ := h
      rcases List.mem_cons.mp hg with rfl | hg
      · rw [hm] at hgn
        exact absurd hgn (by simp)
      · rw [collectWwpnKeys, hm, ih ⟨g, hg, hgn⟩]
        rfl

/-- C2: when every configured fabric has a stored port map, `wwpns` returns
the concatenation, over the fabrics in order and their stored triples in
order, of the single-space splits of each triple's virtual pair string,
issues no build call and writes no metadata; calling it again on its output
returns the identical result with again no build and no write. -/
theorem c2_wwpns_fast_path (cfg : Config) (ext : Ext) (md : Metadata)
    (hall : ∀ f ∈ cfg.fabrics, (getFabricMeta md f).isSome) :
    wwpns cfg ext md =
      (cfg.fabrics.flatMap (fun f => ((getFabricMeta md f).getD []).flatMap
        (fun mv => splitOnChar ' ' mv.2)), md, []) ∧
    wwpns cfg ext (wwpns cfg ext md).2.1 = wwpns cfg ext md := by
  have h1 : wwpns cfg ext md =
      (cfg.fabrics.flatMap (fun f => ((getFabricMeta md f).getD []).flatMap
        (fun mv => splitOnChar ' ' mv.2)), md, []) := by
    rw [wwpns, collectWwpnKeys_of_all cfg.fabrics hall]
  refine ⟨h1, ?_⟩
  rw [h1]
  exact h1

/-- Witness for C2 on a fully provisioned concrete instance. -/
theorem c2_witness :
    wwpns cfgW extW mdW2 =
      (cfgW.fabrics.flatMap (fun f => ((getFabricMeta mdW2 f).getD []).flatMap
        (fun mv => splitOnChar ' ' mv.2)), mdW2, []) :=
  (c2_wwpns_fast_path cfgW extW mdW2 (by decide)).1

theorem buildWwpnsForFabric_ctr (ext : Ext) :
    ∀ (n ctr : Nat), (buildWwpnsForFabric ext ctr n).2.1 = ctr + n := by
  intro n
  induction n with
  | zero => intro ctr; rfl
  | succ n ih =>
    intro ctr
    simp only [buildWwpnsForFabric, ih]
    omega

theorem rebuildLoop_meta_preserved (cfg : Config) (ext : Ext) :
    ∀ (fs : List PyStr) (vios : List Nat) (ctr : Nat) (md : Metadata)
      (f : PyStr), f ∉ fs →
      mdGet (rebuildLoop cfg ext fs vios ctr md).2.1 (sysMetaFabricKey f) =
        mdGet md (sysMetaFabricKey f) := by
  intro fs
  induction fs with
  | nil => intro vios ctr md f _; rfl
  | cons g fs ih =>
    intro vios ctr md f hf
    have hfg : f ≠ g := fun hh => hf (hh ▸ List.mem_cons_self g fs)
    rw [rebuildLoop]
    dsimp only
    rw [ih _ _ _ f (fun hx => hf (List.mem_cons_of_mem g hx)),
      addNpivMgmtMappings_meta]
    exact mdGet_mdSet_ne md _ (fun hh => hfg (metaKey_inj hh))

theorem rebuildLoop_meta (cfg : Config) (ext : Ext) :
    ∀ (fs : List PyStr) (vios : List Nat) (ctr : Nat) (md : Metadata),
      fs.Nodup →
      ∀ k (hk : k < fs.length),
        mdGet (rebuildLoop cfg ext fs vios ctr md).2.1
            (sysMetaFabricKey fs[k]) =
          some (encodePortMap (ext.deriveMap
            (if k % 2 = 0 then vios else vios.reverse)
            (cfg.fabricPorts fs[k])
            (buildWwpnsForFabric ext (ctr + k * cfg.portsPerFabric)
              cfg.portsPerFabric).1)) := by
  intro fs
  induction fs with
  | nil =>
    intro vios ctr md _ k hk
    exact absurd hk (by simp)
  | cons g fs ih =>
    intro vios ctr md hnd k hk
    obtain ⟨hg, hnd2⟩ := List.nodup_cons.mp hnd
    rcases k with _ | k
    · simp only [List.getElem_cons_zero, Nat.zero_mod, Nat.zero_mul,
        Nat.add_zero, if_pos rfl]
      rw [rebuildLoop]
      dsimp only
      rw [rebuildLoop_meta_preserved cfg ext fs _ _ _ g hg,
        addNpivMgmtMappings_meta]
      exact mdGet_mdSet_same md _ _
    · simp only [List.getElem_cons_succ]
      rw [rebuildLoop]
      dsimp only
      rw [buildWwpnsForFabric_ctr]
      have hk2 : k < fs.length := by
        simp only [List.length_cons] at hk
        omega
      rw [ih vios.reverse (ctr + cfg.portsPerFabric) _ hnd2 k hk2]
      have hv : (if k % 2 = 0 then vios.reverse else vios.reverse.reverse) =
          (if (k + 1) % 2 = 0 then vios else vios.reverse) := by
        by_cases hk3 : k % 2 = 0
        · have h4 : (k + 1) % 2 = 1 := by omega
          simp [hk3, h4]
        · have h4 : (k + 1) % 2 = 0 := by omega
          simp [hk3, h4, List.reverse_reverse]
      have hc : ctr + cfg.portsPerFabric + k * cfg.portsPerFabric =
          ctr + (k + 1) * cfg.portsPerFabric := by ring
      rw [hv, hc]

/-- C1: if any configured fabric's stored port map is absent, `wwpns` rebuilds
every configured fabric: the k-th fabric's stored port map afterwards is the
encoding of a mapping freshly derived from newly built virtual WWPNs (pair
calls k*ports_per_fabric onwards) — whatever was stored before, including for
fabrics that had a map, is overwritten. -/
theorem c1_wwpns_rebuilds_all (cfg : Config) (ext : Ext) (md : Metadata)
    (hbad : ∃ f ∈ cfg.fabrics, getFabricMeta md f = none)
    (hnd : cfg.fabrics.Nodup) :
    ∀ k (hk : k < cfg.fabrics.length),
      mdGet (wwpns cfg ext md).2.1 (sysMetaFabricKey cfg.fabrics[k]) =
        some (encodePortMap (ext.deriveMap
          (if k % 2 = 0 then ext.initialVios else ext.initialVios.reverse)
          (cfg.fabricPorts cfg.fabrics[k])
          (buildWwpnsForFabric ext (k * cfg.portsPerFabric)
            cfg.portsPerFabric).1)) := by
  intro k hk
  have hw : wwpns cfg ext md =
      rebuildLoop cfg ext cfg.fabrics ext.initialVios 0 md := by
    rw [wwpns, collectWwpnKeys_none cfg.fabrics hbad]
  rw [hw]
  have h2 := rebuildLoop_meta cfg ext cfg.fabrics ext.initialVios 0 md hnd k hk
  simpa using h2

/-- A metadata store where fabric A has a stored map and fabric B has none. -/
def mdW4 : Metadata := [(sysMetaFabricKey "A".toList, "p,a,b".toList)]

/-- Witness for C1: with fabric B's map missing, both fabrics of cfgW are
rebuilt, fabric A against the initial VIOS order and fabric B against the
reversed order. -/
theorem c1_witness :
    mdGet (wwpns cfgW extW mdW4).2.1 (sysMetaFabricKey "A".toList) =
      some (encodePortMap (extW.deriveMap extW.initialVios
        (cfgW.fabricPorts "A".toList)
        (buildWwpnsForFabric extW 0 cfgW.portsPerFabric).1)) ∧
    mdGet (wwpns cfgW extW mdW4).2.1 (sysMetaFabricKey "B".toList) =
      some (encodePortMap (extW.deriveMap extW.initialVios.reverse
        (cfgW.fabricPorts "B".toList)
        (buildWwpnsForFabric extW (1 * cfgW.portsPerFabric)
          cfgW.portsPerFabric).1)) := by
  constructor
  · have h := c1_wwpns_rebuilds_all cfgW extW mdW4
      ⟨"B".toList, by decide, by decide⟩ (by decide) 0 (by decide)
    simpa [cfgW] using h
  · have h := c1_wwpns_rebuilds_all cfgW extW mdW4
      ⟨"B".toList, by decide, by decide⟩ (by decide) 1 (by decide)
    simpa [cfgW] using h

theorem deriveVios_append (l1 l2 : List Event) :
    deriveVios (l1 ++ l2) = deriveVios l1 ++ deriveVios l2 := by
  induction l1 with
  | nil => rfl
  | cons e l ih => cases e <;> simp [deriveVios, ih]

theorem deriveVios_buildWwpns (ext : Ext) :
    ∀ (n ctr : Nat), deriveVios (buildWwpnsForFabric ext ctr n).2.2 = [] := by
  intro n
  induction n with
  | zero => intro ctr; rfl
  | succ n ih => intro ctr; simp [buildWwpnsForFabric, deriveVios, ih]

theorem deriveVios_addMgmt (ext : Ext) (md : Metadata) (f : PyStr)
    (pm : PortMap) : deriveVios (addNpivMgmtMappings ext md f pm).2 = [] := by
  rw [addNpivMgmtMappings]
  by_cases h : (getFabricState md f).1 = FS_UNMAPPED
  · rw [if_pos h]
    rfl
  · rw [if_neg h]
    rfl

/-- The alternating VIOS orders handed to successive fabrics by the rebuild
loop: the order at hand, then the loop continues with the reversed order. -/
def altVios (vios : List Nat) : Nat → List (List Nat)
  | 0 => []
  | n + 1 => vios :: altVios vios.reverse n

theorem rebuildLoop_deriveVios (cfg : Config) (ext : Ext) :
    ∀ (fs : List PyStr) (vios : List Nat) (ctr : Nat) (md : Metadata),
      deriveVios (rebuildLoop cfg ext fs vios ctr md).2.2 =
        altVios vios fs.length := by
  intro fs
  induction fs with
  | nil => intro vios ctr md; rfl
  | cons g fs ih =>
    intro vios ctr md
    rw [rebuildLoop]
    dsimp only
    rw [deriveVios_append, deriveVios_buildWwpns]
    simp only [List.nil_append, deriveVios, deriveVios_append,
      deriveVios_addMgmt, ih, List.length_cons, altVios]

theorem altVios_length (vios : List Nat) :
    ∀ n, (altVios vios n).length = n := by
  intro n
  induction n generalizing vios with
  | zero => rfl
  | succ n ih => simp [altVios, ih]

theorem altVios_get (vios : List Nat) :
    ∀ (n k : Nat), k < n →
      (altVios vios n)[k]? =
        some (if k % 2 = 0 then vios else vios.reverse) := by
  intro n
  induction n generalizing vios with
  | zero => intro k hk; omega
  | succ n ih =>
    intro k hk
    rcases k with _ | k
    · simp [altVios]
    · have h2 := ih vios.reverse k (by omega)
      rw [altVios]
      rw [List.getElem?_cons_succ, h2]
      by_cases hk3 : k % 2 = 0
      · have h4 : (k + 1) % 2 = 1 := by omega
        simp [hk3, h4]
      · have h4 : (k + 1) % 2 = 0 := by omega
        simp [hk3, h4, List.reverse_reverse]

/-- C7: in the rebuild path, the k-th (0-based) `derive_npiv_map` call
receives the initial VIOS wrapper order when k is even and the reversed
order when k is odd: the wrapper list is reversed after every fabric. -/
theorem c7_wwpns_vios_alternation (cfg : Config) (ext : Ext) (md : Metadata)
    (hbad : ∃ f ∈ cfg.fabrics, getFabricMeta md f = none) :
    (deriveVios (wwpns cfg ext md).2.2).length = cfg.fabrics.length ∧
    ∀ k, k < cfg.fabrics.length →
      (deriveVios (wwpns cfg ext md).2.2)[k]? =
        some (if k % 2 = 0 then ext.initialVios else ext.initialVios.reverse) := by
  have hw : wwpns cfg ext md =
      rebuildLoop cfg ext cfg.fabrics ext.initialVios 0 md := by
    rw [wwpns, collectWwpnKeys_none cfg.fabrics hbad]
  rw [hw, rebuildLoop_deriveVios]
  exact ⟨altVios_length _ _, fun k hk => altVios_get _ _ k hk⟩

/-- Witness for C7: two fabrics and VIOS list [1, 2] — fabric 1 is derived
against [1, 2] and fabric 2 against [2, 1]. -/
theorem c7_witness :
    (deriveVios (wwpns cfgW extW mdW4).2.2).length = 2 ∧
    (deriveVios (wwpns cfgW extW mdW4).2.2)[0]? = some [1, 2] ∧
    (deriveVios (wwpns cfgW extW mdW4).2.2)[1]? = some [2, 1] := by
  have h := c7_wwpns_vios_alternation cfgW extW mdW4
    ⟨"B".toList, by decide, by decide⟩
  refine ⟨by simpa [cfgW] using h.1, ?_, ?_⟩
  · have h2 := h.2 0 (by decide)
    simpa [extW] using h2
  · have h2 := h.2 1 (by decide)
    simpa [extW] using h2

/-! C9 machinery: the spec's presence-iff-mapped invariant. -/

/-- The spec invariant for one fabric: the port-map key is present exactly
when the stored state is FS_MGMT_MAPPED or FS_INST_MAPPED. -/
def fabricInv (md : Metadata) (f : PyStr) : Prop :=
  (mdGet md (sysMetaFabricKey f)).isSome ↔
    (mdGet md (sysFabricStateKey f) = some FS_MGMT_MAPPED ∨
      mdGet md (sysFabricStateKey f) = some FS_INST_MAPPED)

/-- The invariant over every configured fabric. -/
def metaInv (cfg : Config) (md : Metadata) : Prop :=
  ∀ f ∈ cfg.fabrics, fabricInv md f

/-- All stored state values are among the three legal fabric states (or the
key is absent). -/
def stateWf (cfg : Config) (md : Metadata) : Prop :=
  ∀ f ∈ cfg.fabrics,
    mdGet md (sysFabricStateKey f) = none ∨
    mdGet md (sysFabricStateKey f) = some FS_UNMAPPED ∨
    mdGet md (sysFabricStateKey f) = some FS_MGMT_MAPPED ∨
    mdGet md (sysFabricStateKey f) = some FS_INST_MAPPED

theorem getFabricMeta_isSome (md : Metadata) (f : PyStr) :
    (getFabricMeta md f).isSome = (mdGet md (sysMetaFabricKey f)).isSome := by
  cases h : mdGet md (sysMetaFabricKey f) with
  | none => simp [getFabricMeta, h]
  | some v => simp [getFabricMeta, h]

theorem addNpivMgmt_noop {ext : Ext} {md : Metadata} {f : PyStr}
    {pm : PortMap} {st : PyStr}
    (hst : mdGet md (sysFabricStateKey f) = some st)
    (hne : st ≠ FS_UNMAPPED) :
    addNpivMgmtMappings ext md f pm = (md, []) := by
  rw [addNpivMgmtMappings, getFabricState_of_some hst, if_neg hne]

theorem addNpivMgmtMappings_state_ne (ext : Ext) (md : Metadata) (g : PyStr)
    (pm : PortMap) {f : PyStr} (h : f ≠ g) :
    mdGet (addNpivMgmtMappings ext md g pm).1 (sysFabricStateKey f) =
      mdGet md (sysFabricStateKey f) := by
  rw [addNpivMgmtMappings]
  by_cases h2 : (getFabricState md g).1 = FS_UNMAPPED
  · rw [if_pos h2]
    exact (setFabricState_state_ne _ _ h).trans (getFabricState_state_ne _ h)
  · rw [if_neg h2]
    exact getFabricState_state_ne _ h

theorem addNpivMgmt_state_result (ext : Ext) (md : Metadata) (f : PyStr)
    (pm : PortMap)
    (hwf : mdGet md (sysFabricStateKey f) = none ∨
      mdGet md (sysFabricStateKey f) = some FS_UNMAPPED ∨
      mdGet md (sysFabricStateKey f) = some FS_MGMT_MAPPED ∨
      mdGet md (sysFabricStateKey f) = some FS_INST_MAPPED) :
    mdGet (addNpivMgmtMappings ext md f pm).1 (sysFabricStateKey f) =
        some FS_MGMT_MAPPED ∨
      mdGet (addNpivMgmtMappings ext md f pm).1 (sysFabricStateKey f) =
        some FS_INST_MAPPED := by
  rcases hwf with h | h | h | h
  · left
    rw [addNpivMgmtMappings, getFabricState_of_none h, if_pos rfl]
    exact mdGet_mdSet_same _ _ _
  · left
    rw [addNpivMgmtMappings, getFabricState_of_some h, if_pos rfl]
    exact mdGet_mdSet_same _ _ _
  · left
    rw [addNpivMgmt_noop h fs_mgmt_ne_unmapped]
    exact h
  · right
    rw [addNpivMgmt_noop h fs_inst_ne_unmapped]
    exact h

theorem rebuildLoop_keeps_mapped (cfg : Config) (ext : Ext) :
    ∀ (fs : List PyStr) (vios : List Nat) (ctr : Nat) (md : Metadata)
      (f : PyStr),
      (mdGet md (sysMetaFabricKey f)).isSome →
      (mdGet md (sysFabricStateKey f) = some FS_MGMT_MAPPED ∨
        mdGet md (sysFabricStateKey f) = some FS_INST_MAPPED) →
      (mdGet (rebuildLoop cfg ext fs vios ctr md).2.1
        (sysMetaFabricKey f)).isSome ∧
      (mdGet (rebuildLoop cfg ext fs vios ctr md).2.1 (sysFabricStateKey f) =
          some FS_MGMT_MAPPED ∨
        mdGet (rebuildLoop cfg ext fs vios ctr md).2.1 (sysFabricStateKey f) =
          some FS_INST_MAPPED) := by
  intro fs
  induction fs with
  | nil => intro vios ctr md f hm hs; exact ⟨hm, hs⟩
  | cons g fs ih =>
    intro vios ctr md f hm hs
    rw [rebuildLoop]
    dsimp only
    apply ih
    · rw [addNpivMgmtMappings_meta]
      by_cases hfg : f = g
      · subst hfg
        rw [setFabricMeta, mdGet_mdSet_same]
        rfl
      · rw [setFabricMeta, mdGet_mdSet_ne md _ (fun hh => hfg (metaKey_inj hh))]
        exact hm
    · by_cases hfg : f = g
      · subst hfg
        have hs1 : mdGet (setFabricMeta md f (ext.deriveMap vios
            (cfg.fabricPorts f) (buildWwpnsForFabric ext ctr
              cfg.portsPerFabric).1)) (sysFabricStateKey f) =
            mdGet md (sysFabricStateKey f) := setFabricMeta_state md f f _
        rcases hs with h | h
        · rw [addNpivMgmt_noop (hs1.trans h) fs_mgmt_ne_unmapped]
          left
          exact hs1.trans h
        · rw [addNpivMgmt_noop (hs1.trans h) fs_inst_ne_unmapped]
          right
          exact hs1.trans h
      · rw [addNpivMgmtMappings_state_ne _ _ _ _ hfg, setFabricMeta_state]
        exact hs

theorem rebuildLoop_makes_mapped (cfg : Config) (ext : Ext) :
    ∀ (fs : List PyStr) (vios : List Nat) (ctr : Nat) (md : Metadata)
      (f : PyStr), f ∈ fs →
      (mdGet md (sysFabricStateKey f) = none ∨
        mdGet md (sysFabricStateKey f) = some FS_UNMAPPED ∨
        mdGet md (sysFabricStateKey f) = some FS_MGMT_MAPPED ∨
        mdGet md (sysFabricStateKey f) = some FS_INST_MAPPED) →
      (mdGet (rebuildLoop cfg ext fs vios ctr md).2.1
        (sysMetaFabricKey f)).isSome ∧
      (mdGet (rebuildLoop cfg ext fs vios ctr md).2.1 (sysFabricStateKey f) =
          some FS_MGMT_MAPPED ∨
        mdGet (rebuildLoop cfg ext fs vios ctr md).2.1 (sysFabricStateKey f) =
          some FS_INST_MAPPED) := by
  intro fs
  induction fs with
  | nil => intro vios ctr md f hf; exact absurd hf (by simp)
  | cons g fs ih =>
    intro vios ctr md f hf hwf
    by_cases hfg : f = g
    · subst hfg
      rw [rebuildLoop]
      dsimp only
      apply rebuildLoop_keeps_mapped
      · rw [addNpivMgmtMappings_meta, setFabricMeta, mdGet_mdSet_same]
        rfl
      · apply addNpivMgmt_state_result
        rw [setFabricMeta_state]
        exact hwf
    · have hf2 : f ∈ fs := by
        rcases List.mem_cons.mp hf with h | h
        · exact absurd h hfg
        · exact h
      rw [rebuildLoop]
      dsimp only
      apply ih _ _ _ f hf2
      rw [addNpivMgmtMappings_state_ne _ _ _ _ hfg, setFabricMeta_state]
      exact hwf

theorem connectFabric_ok_inv {vm : PyStr} {md : Metadata} {f : PyStr}
    {md1 : Metadata} {evs1 : List Event}
    (h : connectFabric vm md f = Except.ok (md1, evs1)) :
    (getFabricMeta md f).isSome ∧
      mdGet md1 (sysFabricStateKey f) = some FS_INST_MAPPED ∧
      (∀ g, mdGet md1 (sysMetaFabricKey g) = mdGet md (sysMetaFabricKey g)) ∧
      (∀ g, g ≠ f →
        mdGet md1 (sysFabricStateKey g) = mdGet md (sysFabricStateKey g)) := by
  cases hm : getFabricMeta md f with
  | none =>
    exfalso
    by_cases hmg : (getFabricState md f).1 = FS_MGMT_MAPPED
    · simp [connectFabric, hm, removeNpivMgmtMappings, hmg, Bind.bind,
        Except.bind] at h
    · simp [connectFabric, hm, removeNpivMgmtMappings, hmg, Bind.bind,
        Except.bind] at h
  | some pm =>
    obtain ⟨md1b, evs1b, hcf, h1, h2, h3⟩ := connectFabric_ok_spec vm hm
    rw [hcf] at h
    injection h with h
    injection h with ha hb
    subst ha
    exact ⟨by simp [hm], h1, h2, h3⟩

theorem connectLoop_ok_inv {vm : PyStr} :
    ∀ (fs : List PyStr) (md md2 : Metadata) (evs : List Event),
      connectLoop vm md fs = Except.ok (md2, evs) →
      (∀ g, mdGet md2 (sysMetaFabricKey g) = mdGet md (sysMetaFabricKey g)) ∧
      (∀ f ∈ fs, mdGet md2 (sysFabricStateKey f) = some FS_INST_MAPPED ∧
        (getFabricMeta md f).isSome) ∧
      (∀ g, mdGet md2 (sysFabricStateKey g) = some FS_INST_MAPPED ∨
        mdGet md2 (sysFabricStateKey g) = mdGet md (sysFabricStateKey g)) := by
  intro fs
  induction fs with
  | nil =>
    intro md md2 evs h
    rw [connectLoop] at h
    injection h with h
    injection h with ha hb
    subst ha
    exact ⟨fun g => rfl, by simp, fun g => Or.inr rfl⟩
  | cons f fs ih =>
    intro md md2 evs h
    rw [connectLoop] at h
    cases hcf : connectFabric vm md f with
    | error e =>
      rw [hcf] at h
      simp [Bind.bind, Except.bind] at h
    | ok r1 =>
      obtain ⟨md1, evs1⟩ := r1
      rw [hcf] at h
      simp only [Bind.bind, Except.bind] at h
      cases hloop : connectLoop vm md1 fs with
      | error e =>
        rw [hloop] at h
        simp at h
      | ok r2 =>
        obtain ⟨md2b, evs2⟩ := r2
        rw [hloop] at h
        simp only [] at h
        injection h with h
        injection h with ha hb
        subst ha
        obtain ⟨hm1, hst1, hmeta1, hstate1⟩ := connectFabric_ok_inv hcf
        obtain ⟨hmeta2, hfs2, hstate2⟩ := ih md1 md2b evs2 hloop
        have hgm : ∀ x, getFabricMeta md1 x = getFabricMeta md x := by
          intro x
          rw [getFabricMeta, getFabricMeta, hmeta1 x]
        refine ⟨?_, ?_, ?_⟩
        · intro g
          rw [hmeta2 g, hmeta1 g]
        · intro x hx
          rcases List.mem_cons.mp hx with rfl | hx
          · refine ⟨?_, hm1⟩
            rcases hstate2 x with h2 | h2
            · exact h2
            · rw [h2]
              exact hst1
          · obtain ⟨ha2, hb2⟩ := hfs2 x hx
            rw [hgm x] at hb2
            exact ⟨ha2, hb2⟩
        · intro g
          rcases hstate2 g with h2 | h2
          · exact Or.inl h2
          · by_cases hg : g = f
            · subst hg
              rw [h2]
              exact Or.inl hst1
            · right
              rw [h2, hstate1 g hg]

theorem disconnect_md_unchanged {cfg : Config} {ts : Option PyStr}
    {md md2 : Metadata} {evs : List Event}
    (h : disconnect_volume cfg ts md = Except.ok (md2, evs)) : md2 = md := by
  rw [disconnect_volume] at h
  by_cases hts : ts ∈ TASK_STATES_FOR_DISCONNECT.map some
  · rw [if_pos hts] at h
    cases hc : collectDisconnectMaps md cfg.fabrics with
    | error e =>
      rw [hc] at h
      simp [Except.map] at h
    | ok pms =>
      rw [hc] at h
      simp only [Except.map] at h
      injection h with h
      injection h with ha hb
      exact ha.symm
  · rw [if_neg hts] at h
    injection h with h
    injection h with ha hb
    exact ha.symm

/-- C9 counterexample: from the empty metadata store, where the invariant
holds, `_set_fabric_meta` alone — one of the claim's state/meta accessors, at
its own call boundary — leaves the port map present while the fabric state
is still unmapped, violating the biconditional. -/
theorem c9_counterexample :
    fabricInv [] "A".toList ∧
      ¬ fabricInv (setFabricMeta [] "A".toList [("p".toList, "a b".toList)])
        "A".toList := by
  constructor
  · unfold fabricInv
    decide
  · unfold fabricInv
    decide

/-- C9 amended: the presence-iff-mapped invariant (with legal stored state
values) is preserved by every completed public operation — wwpns,
connect_volume, disconnect_volume — and by the read accessor
`_get_fabric_state` including its write-on-read; `_set_fabric_meta` alone may
break it mid-operation (see the counterexample), wwpns re-establishing it by
the end of each fabric iteration. -/
theorem c9_invariant_preserved (cfg : Config) (ext : Ext) (vm : PyStr)
    (ts : Option PyStr) (md : Metadata) (hinv : metaInv cfg md)
    (hwf : stateWf cfg md) :
    (metaInv cfg (wwpns cfg ext md).2.1 ∧ stateWf cfg (wwpns cfg ext md).2.1) ∧
    (∀ md2 evs, connect_volume cfg vm md = Except.ok (md2, evs) →
      metaInv cfg md2 ∧ stateWf cfg md2) ∧
    (∀ md2 evs, disconnect_volume cfg ts md = Except.ok (md2, evs) →
      metaInv cfg md2 ∧ stateWf cfg md2) ∧
    (∀ f, metaInv cfg (getFabricState md f).2 ∧
      stateWf cfg (getFabricState md f).2) := by
  refine ⟨?_, ?_, ?_, ?_⟩
  · cases hcw : collectWwpnKeys md cfg.fabrics with
    | some keys =>
      have hw : wwpns cfg ext md = (keys, md, []) := by rw [wwpns, hcw]
      rw [hw]
      exact ⟨hinv, hwf⟩
    | none =>
      have hw : wwpns cfg ext md =
          rebuildLoop cfg ext cfg.fabrics ext.initialVios 0 md := by
        rw [wwpns, hcw]
      rw [hw]
      constructor
      · intro f hf
        obtain ⟨hm2, hs2⟩ := rebuildLoop_makes_mapped cfg ext cfg.fabrics
          ext.initialVios 0 md f hf (hwf f hf)
        exact iff_of_true hm2 hs2
      · intro f hf
        obtain ⟨hm2, hs2⟩ := rebuildLoop_makes_mapped cfg ext cfg.fabrics
          ext.initialVios 0 md f hf (hwf f hf)
        rcases hs2 with h | h
        · exact Or.inr (Or.inr (Or.inl h))
        · exact Or.inr (Or.inr (Or.inr h))
  · intro md2 evs h
    obtain ⟨hmeta, hfs, _⟩ := connectLoop_ok_inv cfg.fabrics md md2 evs h
    constructor
    · intro f hf
      obtain ⟨hstf, hmf⟩ := hfs f hf
      have hL : (mdGet md2 (sysMetaFabricKey f)).isSome := by
        rw [hmeta f, ← getFabricMeta_isSome]
        exact hmf
      exact iff_of_true hL (Or.inr hstf)
    · intro f hf
      exact Or.inr (Or.inr (Or.inr (hfs f hf).1))
  · intro md2 evs h
    rw [disconnect_md_unchanged h]
    exact ⟨hinv, hwf⟩
  · intro f
    cases hk : mdGet md (sysFabricStateKey f) with
    | some st =>
      rw [getFabricState_of_some hk]
      exact ⟨hinv, hwf⟩
    | none =>
      rw [getFabricState_of_none hk]
      constructor
      · intro g hg
        by_cases hgf : g = f
        · subst hgf
          have hbase := hinv g hg
          constructor
          · intro hl
            rw [mdGet_mdSet_ne md _ (metaKey_ne_stateKey g g)] at hl
            rcases hbase.mp hl with h2 | h2 <;>
              (rw [hk] at h2; exact absurd h2 (by simp))
          · intro hr
            rcases hr with h2 | h2 <;>
              (rw [mdGet_mdSet_same] at h2; exact absurd h2 (by decide))
        · have hbase := hinv g hg
          have e1 : mdGet (mdSet md (sysFabricStateKey f) FS_UNMAPPED)
              (sysMetaFabricKey g) = mdGet md (sysMetaFabricKey g) :=
            mdGet_mdSet_ne md _ (metaKey_ne_stateKey g f)
          have e2 : mdGet (mdSet md (sysFabricStateKey f) FS_UNMAPPED)
              (sysFabricStateKey g) = mdGet md (sysFabricStateKey g) :=
            mdGet_mdSet_ne md _ (fun hh => hgf (stateKey_inj hh))
          unfold fabricInv
          rw [e1, e2]
          exact hbase
      · intro g hg
        by_cases hgf : g = f
        · subst hgf
          right
          left
          exact mdGet_mdSet_same _ _ _
        · have e2 : mdGet (mdSet md (sysFabricStateKey f) FS_UNMAPPED)
              (sysFabricStateKey g) = mdGet md (sysFabricStateKey g) :=
            mdGet_mdSet_ne md _ (fun hh => hgf (stateKey_inj hh))
          rw [e2]
          exact hwf g hg

/-- Witness for C9's amended theorem: the invariant survives wwpns on a
concrete fully mapped instance. -/
theorem c9_witness :
    metaInv cfgW (wwpns cfgW extW mdW2).2.1 ∧
      stateWf cfgW (wwpns cfgW extW mdW2).2.1 :=
  (c9_invariant_preserved cfgW extW "i".toList none mdW2
    (by unfold metaInv fabricInv; decide) (by unfold stateWf; decide)).1

end NPIV
